import Mathlib

/-!
Shallow embedding of the GDSS backend (`main.py` / `schemas.py`): the
`/results` aggregation engine (per-user Weighted Product scoring followed by
Borda-count aggregation with dense competition ranks) and the `/rate` handler
operating on the in-memory vote store.

Modelling conventions:
* Python floats are modelled as real numbers; `pow(x, w)` becomes `Real.rpow`.
* Python dicts are modelled as insertion-ordered association lists
  (`dictInsert` / `dictOfList`), matching dict iteration order (first
  insertion) and overwrite-on-repeated-key semantics.
* The nested dict `user_groups[user][cand][crit]` is represented by its two
  observable aspects: the insertion-ordered list of distinct user ids
  (`userIds`, dict key order = first occurrence) and the score lookup
  (`voteScore`, last matching vote wins, exactly the dict's overwrite).
* `sorted(..., key=k, reverse=True)` (a stable descending sort) is modelled by
  the stable insertion sort `sortDesc`.
-/

/-- A candidate document (see `schemas.Candidate` and `DEFAULT_CANDIDATES`). -/
structure Candidate where
  id : String
  name : String
  position : String
  photo_url : Option String
deriving DecidableEq, Repr

/-- A criterion document: weight is a float in [0,1] in the source,
type is Benefit or Cost (see `schemas.Criterion`). -/
structure Criterion where
  id : String
  name : String
  weight : ℚ
  type : String
deriving DecidableEq, Repr

/-- A vote record as stored by `/rate` (see `schemas.Vote`). -/
structure Vote where
  userId : String
  candidateId : String
  criteriaId : String
  scoreValue : ℤ
deriving DecidableEq, Repr

/-- One entry of the final table before the `rank` field is assigned
(the dict built in the `enriched` loop of `results`). -/
structure PreResult where
  candidateId : String
  name : String
  position : String
  photo_url : Option String
  totalBordaPoints : ℕ
deriving DecidableEq, Repr

/-- One entry of the final `/results` payload, after `item["rank"]` is set. -/
structure RankedResult where
  candidateId : String
  name : String
  position : String
  photo_url : Option String
  totalBordaPoints : ℕ
  rank : ℕ
deriving DecidableEq, Repr

/-- Forget the `rank` field of a `RankedResult`. -/
def RankedResult.toPre (r : RankedResult) : PreResult :=
  ⟨r.candidateId, r.name, r.position, r.photo_url, r.totalBordaPoints⟩

/-- Python dict assignment `d[k] = v`: overwrite in place if the key is
present, otherwise append at the end (keys keep first-insertion order). -/
def dictInsert {α : Type} (k : String) (v : α) : List (String × α) → List (String × α)
  | [] => [(k, v)]
  | (k', v') :: rest => if k = k' then (k, v) :: rest else (k', v') :: dictInsert k v rest

/-- Python dict comprehension `{keyOf(x): x for x in l}` as an
insertion-ordered association list. -/
def dictOfList {α : Type} (keyOf : α → String) (l : List α) : List (String × α) :=
  l.foldl (fun d x => dictInsert (keyOf x) x d) []

/-- Python dict lookup `d.get(k)`. -/
def dictGet {α : Type} (d : List (String × α)) (k : String) : Option α :=
  (d.find? (fun kv => kv.1 == k)).map (fun kv => kv.2)

/-- Lookup `cand_map[cid]` where `cand_map = {c["id"]: c for c in candidates}`.
The fallback value is never reached for ids coming from the candidate list. -/
def candLookup (cands : List Candidate) (cid : String) : Candidate :=
  (dictGet (dictOfList Candidate.id cands) cid).getD ⟨cid, "", "", none⟩

/-- The score `user_groups[u][c][k]` of the nested vote dict: the last vote in
the list with this (userId, candidateId, criteriaId) triple wins, exactly as
repeated dict assignment overwrites. -/
def voteScore (votes : List Vote) (u c k : String) : Option ℤ :=
  votes.foldl
    (fun acc v =>
      if v.userId = u ∧ v.candidateId = c ∧ v.criteriaId = k then some v.scoreValue else acc)
    none

/-- The keys of `user_groups` in insertion order: distinct userIds in order of
first occurrence in the vote list. -/
def userIds (votes : List Vote) : List String :=
  votes.foldl (fun acc v => if v.userId ∈ acc then acc else acc ++ [v.userId]) []

/-- Insert `x` into a list sorted descending by `key`, before the first element
whose key is ≤ the key of `x` (the stable position). -/
def insertDesc {α β : Type} [LinearOrder β] (key : α → β) (x : α) : List α → List α
  | [] => [x]
  | y :: ys => if key y ≤ key x then x :: y :: ys else y :: insertDesc key x ys

/-- Python's `sorted(l, key=key, reverse=True)`: the stable descending sort. -/
def sortDesc {α β : Type} [LinearOrder β] (key : α → β) (l : List α) : List α :=
  l.foldr (insertDesc key) []

/-- One factor of the Weighted Product: `pow(x, w)` for a Benefit criterion and
`pow(x, -w if w != 0 else 0)` for a Cost criterion, with `x` the normalized
score. -/
noncomputable def wpFactor (crit : Criterion) (x : ℝ) : ℝ :=
  if crit.type = "Cost" then x ^ (((if crit.weight ≠ 0 then -crit.weight else 0) : ℚ) : ℝ)
  else x ^ ((crit.weight : ℚ) : ℝ)

/-- The factor contributed by one `crit_defs` entry `kv` for user `u` and
candidate `cid`: the recorded score (default 1), clamped to [1,100] and
divided by 100, raised to the signed weight. -/
noncomputable def wpTerm (votes : List Vote) (u cid : String) (kv : String × Criterion) : ℝ :=
  wpFactor kv.2 (((max 1 (min 100 ((voteScore votes u cid kv.1).getD 1)) : ℤ) : ℝ) / 100)

/-- The per-user Weighted Product score `S[cid]`: the product over the entries
of `crit_defs = {c["id"]: c for c in criteria}`, in dict iteration order,
starting from 1.0. -/
noncomputable def wpScore (crits : List Criterion) (votes : List Vote) (u cid : String) : ℝ :=
  (dictOfList Criterion.id crits).foldl (fun product kv => product * wpTerm votes u cid kv) 1

/-- Stage A ranking of one user: candidate ids sorted by `S` descending with
Python's stable sort. -/
noncomputable def userRanking (cands : List Candidate) (crits : List Criterion)
    (votes : List Vote) (u : String) : List String :=
  sortDesc (fun cid => wpScore crits votes u cid) (cands.map Candidate.id)

/-- Borda points contributed to `cid` by one ranking, scanning the ranking at
0-based index `i`: an occurrence at index `i` contributes `N - i`. -/
def bordaPoints (N : ℕ) : ℕ → List String → String → ℕ
  | _, [], _ => 0
  | i, c :: rest, cid => (if c = cid then N - i else 0) + bordaPoints N (i + 1) rest cid

/-- `total_points[cid]`: the Borda points summed over all users who cast at
least one vote, with `N = len(candidate_ids)`. -/
noncomputable def totalPoints (cands : List Candidate) (crits : List Criterion)
    (votes : List Vote) (cid : String) : ℕ :=
  ((userIds votes).map
    (fun u => bordaPoints cands.length 0 (userRanking cands crits votes u) cid)).sum

/-- The `enriched` table: one row per element of `candidate_ids`, with the
candidate's catalog fields and its Borda total. -/
noncomputable def enriched (cands : List Candidate) (crits : List Criterion)
    (votes : List Vote) : List PreResult :=
  (cands.map Candidate.id).map (fun cid =>
    { candidateId := cid
      name := (candLookup cands cid).name
      position := (candLookup cands cid).position
      photo_url := (candLookup cands cid).photo_url
      totalBordaPoints := totalPoints cands crits votes cid })

/-- `enriched.sort(key=lambda x: x["totalBordaPoints"], reverse=True)`. -/
noncomputable def sortedEnriched (cands : List Candidate) (crits : List Criterion)
    (votes : List Vote) : List PreResult :=
  sortDesc (fun e => e.totalBordaPoints) (enriched cands crits votes)

/-- The rank-assignment loop of `results`: `rank = 0`, `last_points = None`,
then for each item (1-based index `idx`): if its points differ from
`last_points`, set `rank = idx` and remember the points; the item gets the
current `rank`. -/
def rankAssign : ℕ → ℕ → Option ℕ → List PreResult → List RankedResult
  | _, _, _, [] => []
  | idx, rank, last, e :: rest =>
    if some e.totalBordaPoints ≠ last then
      { candidateId := e.candidateId, name := e.name, position := e.position,
        photo_url := e.photo_url, totalBordaPoints := e.totalBordaPoints, rank := idx }
        :: rankAssign (idx + 1) idx (some e.totalBordaPoints) rest
    else
      { candidateId := e.candidateId, name := e.name, position := e.position,
        photo_url := e.photo_url, totalBordaPoints := e.totalBordaPoints, rank := rank }
        :: rankAssign (idx + 1) rank last rest

/-- The `/results` engine: empty candidate list short-circuits to an empty
payload; otherwise WP + Borda + stable descending sort + dense ranks. -/
noncomputable def results (cands : List Candidate) (crits : List Criterion)
    (votes : List Vote) : List RankedResult :=
  if cands.isEmpty then [] else rankAssign 1 0 none (sortedEnriched cands crits votes)

/-- One entry of the `scores` array of a `/rate` request. -/
structure ScoreInput where
  criteriaId : String
  scoreValue : ℤ
deriving DecidableEq, Repr

/-- A `/rate` request body. -/
structure RateRequest where
  userId : String
  candidateId : String
  scores : List ScoreInput
deriving DecidableEq, Repr

/-- Outcome of a `/rate` call: success with the inserted count, or an
HTTPException with status and detail. -/
inductive RateResult where
  | ok (inserted : ℕ)
  | err (status : ℕ) (detail : String)
deriving DecidableEq, Repr

/-- The `/rate` handler on the in-memory store: validate every criteriaId (the
loop raises at the first unknown one), reject an already rated
(userId, candidateId) pair with HTTP 400, otherwise append one vote record per
score and report the inserted count. Returns the new vote store and the
outcome; on an error the store is unchanged (the exception is raised before
any append). -/
def rateCandidate (crits : List Criterion) (votes : List Vote) (p : RateRequest) :
    List Vote × RateResult :=
  match p.scores.find? (fun s => !(crits.any (fun c => c.id == s.criteriaId))) with
  | some s => (votes, .err 400 ("Invalid criteria: " ++ s.criteriaId))
  | none =>
    if votes.any (fun v => v.userId == p.userId && v.candidateId == p.candidateId) then
      (votes, .err 400 "You have already rated this candidate.")
    else
      (votes ++ p.scores.map (fun s => ⟨p.userId, p.candidateId, s.criteriaId, s.scoreValue⟩),
        .ok p.scores.length)

/-- Concrete candidate used in witnesses and counterexamples. -/
def exC1 : Candidate := ⟨"c1", "Alice", "Engineer", none⟩

/-- Concrete candidate used in witnesses and counterexamples. -/
def exC2 : Candidate := ⟨"c2", "Bob", "Engineer", none⟩

/-- Concrete candidate used in witnesses and counterexamples. -/
def exC3 : Candidate := ⟨"c3", "Carla", "Engineer", none⟩

/-- A two-candidate catalog. -/
def exCands2 : List Candidate := [exC1, exC2]

/-- A three-candidate catalog. -/
def exCands3 : List Candidate := [exC1, exC2, exC3]

/-- A Benefit criterion with weight 1. -/
def exCritB : Criterion := ⟨"k1", "Skill", 1, "Benefit"⟩

/-- A second Benefit criterion, distinct id. -/
def exCritB2 : Criterion := ⟨"k2", "Communication", 0, "Benefit"⟩

/-- A Cost criterion with weight 1. -/
def exCritCost : Criterion := ⟨"k1", "Price", 1, "Cost"⟩

/-- A single vote by user u1 for candidate c1. -/
def exVotes1 : List Vote := [⟨"u1", "c1", "k1", 50⟩]

/-- A vote referencing a candidate id and a criterion id that exist nowhere. -/
def exStray : Vote := ⟨"u1", "ghost", "g", 50⟩

/-- Votes for the Cost-criterion scenario: scores 80 and 20. -/
def exVotes7 : List Vote := [⟨"u1", "c1", "k1", 80⟩, ⟨"u1", "c2", "k1", 20⟩]

/-- Votes for the Benefit-criterion scenario: scores 80, 60, 100. -/
def exVotes8 : List Vote :=
  [⟨"u1", "c1", "k1", 80⟩, ⟨"u1", "c2", "k1", 60⟩, ⟨"u1", "c3", "k1", 100⟩]

/-- An explicit vote with scoreValue 1 for the pair (c1, k1). -/
def exVoteC4 : Vote := ⟨"u1", "c1", "k1", 1⟩

/-- A vote list holding only the explicit scoreValue-1 vote. -/
def exVotesC4 : List Vote := [exVoteC4]

/-- A well-formed rate request with one score. -/
def exRate : RateRequest := ⟨"u1", "c1", [⟨"k1", 80⟩]⟩

/-- A rate request with an empty score list. -/
def exRateEmpty : RateRequest := ⟨"u1", "c1", []⟩

theorem insertDesc_perm {α β : Type} [LinearOrder β] (key : α → β) (x : α) :
    ∀ l : List α, List.Perm (insertDesc key x l) (x :: l)
  | [] => List.Perm.refl _
  | y :: ys => by
    unfold insertDesc
    by_cases h : key y ≤ key x
    · simp [h]
    · simp only [if_neg h]
      exact ((insertDesc_perm key x ys).cons y).trans (List.Perm.swap x y ys)

theorem sortDesc_perm {α β : Type} [LinearOrder β] (key : α → β) :
    ∀ l : List α, List.Perm (sortDesc key l) l
  | [] => List.Perm.refl _
  | a :: l => ((insertDesc_perm key a _).trans ((sortDesc_perm key l).cons a))

theorem mem_insertDesc {α β : Type} [LinearOrder β] (key : α → β) (x a : α) (l : List α) :
    a ∈ insertDesc key x l ↔ a = x ∨ a ∈ l := by
  rw [(insertDesc_perm key x l).mem_iff, List.mem_cons]

theorem sorted_insertDesc {α β : Type} [LinearOrder β] (key : α → β) (x : α) :
    ∀ l : List α, l.Sorted (fun a b => key b ≤ key a) →
      (insertDesc key x l).Sorted (fun a b => key b ≤ key a)
  | [], _ => List.sorted_singleton x
  | y :: ys, hs => by
    unfold insertDesc
    by_cases h : key y ≤ key x
    · simp only [if_pos h, List.sorted_cons]
      refine ⟨fun b hb => ?_, List.sorted_cons.mp hs⟩
      rcases List.mem_cons.mp hb with rfl | hb
      · exact h
      · exact le_trans (List.rel_of_sorted_cons hs b hb) h
    · simp only [if_neg h, List.sorted_cons]
      refine ⟨fun b hb => ?_, sorted_insertDesc key x ys (List.sorted_cons.mp hs).2⟩
      rcases (mem_insertDesc key x b ys).mp hb with rfl | hb
      · exact le_of_lt (lt_of_not_le h)
      · exact List.rel_of_sorted_cons hs b hb

theorem sorted_sortDesc {α β : Type} [LinearOrder β] (key : α → β) :
    ∀ l : List α, (sortDesc key l).Sorted (fun a b => key b ≤ key a)
  | [] => List.sorted_nil
  | a :: l => sorted_insertDesc key a _ (sorted_sortDesc key l)

theorem insertDesc_congr {α β : Type} [LinearOrder β] (key₁ key₂ : α → β) (x : α) :
    ∀ l : List α, key₁ x = key₂ x → (∀ a ∈ l, key₁ a = key₂ a) →
      insertDesc key₁ x l = insertDesc key₂ x l
  | [], _, _ => rfl
  | y :: ys, hx, hl => by
    unfold insertDesc
    rw [hx, hl y (List.mem_cons_self y ys),
      insertDesc_congr key₁ key₂ x ys hx (fun a ha => hl a (List.mem_cons_of_mem y ha))]

theorem sortDesc_congr {α β : Type} [LinearOrder β] (key₁ key₂ : α → β) :
    ∀ l : List α, (∀ a ∈ l, key₁ a = key₂ a) → sortDesc key₁ l = sortDesc key₂ l
  | [], _ => rfl
  | a :: l, hl => by
    show insertDesc key₁ a (sortDesc key₁ l) = insertDesc key₂ a (sortDesc key₂ l)
    rw [sortDesc_congr key₁ key₂ l (fun b hb => hl b (List.mem_cons_of_mem a hb))]
    exact insertDesc_congr key₁ key₂ a _ (hl a (List.mem_cons_self a l))
      (fun b hb => hl b (List.mem_cons_of_mem a ((sortDesc_perm key₂ l).mem_iff.mp hb)))

theorem rankAssign_cons (idx rank : ℕ) (last : Option ℕ) (e : PreResult)
    (rest : List PreResult) :
    rankAssign idx rank last (e :: rest) =
      { candidateId := e.candidateId, name := e.name, position := e.position,
        photo_url := e.photo_url, totalBordaPoints := e.totalBordaPoints,
        rank := if some e.totalBordaPoints = last then rank else idx }
        :: rankAssign (idx + 1) (if some e.totalBordaPoints = last then rank else idx)
            (some e.totalBordaPoints) rest := by
  by_cases h : some e.totalBordaPoints = last
  · simp [rankAssign, h]
  · simp [rankAssign, h]

theorem rankAssign_length : ∀ (xs : List PreResult) (idx rank : ℕ) (last : Option ℕ),
    (rankAssign idx rank last xs).length = xs.length
  | [], _, _, _ => rfl
  | e :: rest, idx, rank, last => by
    rw [rankAssign_cons]
    simp [rankAssign_length rest]

theorem rankAssign_map_toPre : ∀ (xs : List PreResult) (idx rank : ℕ) (last : Option ℕ),
    (rankAssign idx rank last xs).map RankedResult.toPre = xs
  | [], _, _, _ => rfl
  | e :: rest, idx, rank, last => by
    rw [rankAssign_cons]
    simp only [List.map_cons, rankAssign_map_toPre rest]
    rfl

theorem rankAssign_map_points (xs : List PreResult) (idx rank : ℕ) (last : Option ℕ) :
    (rankAssign idx rank last xs).map RankedResult.totalBordaPoints
      = xs.map PreResult.totalBordaPoints := by
  conv_rhs => rw [← rankAssign_map_toPre xs idx rank last]
  rw [List.map_map]
  rfl

theorem rankAssign_map_cid (xs : List PreResult) (idx rank : ℕ) (last : Option ℕ) :
    (rankAssign idx rank last xs).map RankedResult.candidateId
      = xs.map PreResult.candidateId := by
  conv_rhs => rw [← rankAssign_map_toPre xs idx rank last]
  rw [List.map_map]
  rfl

theorem rankAssign_mem {res : RankedResult} (xs : List PreResult) (idx rank : ℕ)
    (last : Option ℕ) (h : res ∈ rankAssign idx rank last xs) : res.toPre ∈ xs := by
  rw [← rankAssign_map_toPre xs idx rank last]
  exact List.mem_map_of_mem _ h

theorem dictInsert_key_mem {α : Type} (k : String) (v : α) :
    ∀ (d : List (String × α)) (kv : String × α), kv ∈ dictInsert k v d → kv.1 = k ∨ kv ∈ d
  | [], kv, h => by
    simp only [dictInsert, List.mem_singleton] at h
    exact Or.inl (by rw [h])
  | (k', v') :: rest, kv, h => by
    by_cases hk : k = k'
    · simp only [dictInsert, if_pos hk, List.mem_cons] at h
      rcases h with rfl | h
      · exact Or.inl rfl
      · exact Or.inr (List.mem_cons_of_mem _ h)
    · simp only [dictInsert, if_neg hk, List.mem_cons] at h
      rcases h with rfl | h
      · exact Or.inr (List.mem_cons_self _ _)
      · rcases dictInsert_key_mem k v rest kv h with h1 | h2
        · exact Or.inl h1
        · exact Or.inr (List.mem_cons_of_mem _ h2)

theorem dict_keys_sub_aux {α : Type} (keyOf : α → String) :
    ∀ (l : List α) (d : List (String × α)) (kv : String × α),
      kv ∈ l.foldl (fun d x => dictInsert (keyOf x) x d) d →
      kv.1 ∈ l.map keyOf ∨ kv ∈ d
  | [], _, _, h => Or.inr h
  | x :: rest, d, kv, h => by
    rcases dict_keys_sub_aux keyOf rest (dictInsert (keyOf x) x d) kv h with h1 | h2
    · exact Or.inl (List.mem_cons_of_mem _ h1)
    · rcases dictInsert_key_mem (keyOf x) x d kv h2 with h3 | h4
      · exact Or.inl (by rw [h3]; exact List.mem_cons_self _ _)
      · exact Or.inr h4

theorem dict_keys_sub {α : Type} (keyOf : α → String) (l : List α) (kv : String × α)
    (h : kv ∈ dictOfList keyOf l) : kv.1 ∈ l.map keyOf := by
  rcases dict_keys_sub_aux keyOf l [] kv h with h1 | h2
  · exact h1
  · simp at h2

theorem dictInsert_of_not_mem {α : Type} (k : String) (v : α) :
    ∀ d : List (String × α), k ∉ d.map Prod.fst → dictInsert k v d = d ++ [(k, v)]
  | [], _ => rfl
  | (k', v') :: rest, h => by
    simp only [List.map_cons, List.mem_cons] at h
    push_neg at h
    simp only [dictInsert, if_neg h.1]
    rw [dictInsert_of_not_mem k v rest h.2]
    rfl

theorem dictOfList_nodup_aux {α : Type} (keyOf : α → String) :
    ∀ (l : List α) (d : List (String × α)), (l.map keyOf).Nodup →
      (∀ k ∈ l.map keyOf, k ∉ d.map Prod.fst) →
      l.foldl (fun d x => dictInsert (keyOf x) x d) d = d ++ l.map (fun x => (keyOf x, x))
  | [], d, _, _ => by simp
  | x :: rest, d, hnd, hdis => by
    have hnd' : keyOf x ∉ rest.map keyOf ∧ (rest.map keyOf).Nodup := by
      rw [List.map_cons, List.nodup_cons] at hnd
      exact hnd
    have hx : keyOf x ∉ d.map Prod.fst := hdis _ (List.mem_cons_self _ _)
    show rest.foldl (fun d x => dictInsert (keyOf x) x d) (dictInsert (keyOf x) x d)
        = d ++ (x :: rest).map (fun x => (keyOf x, x))
    rw [dictInsert_of_not_mem _ _ d hx]
    rw [dictOfList_nodup_aux keyOf rest (d ++ [(keyOf x, x)]) hnd'.2 ?_]
    · simp
    · intro k hk
      simp only [List.map_append, List.mem_append, List.map_cons]
      push_neg
      refine ⟨hdis k (List.mem_cons_of_mem _ hk), ?_⟩
      simp only [List.map_nil, List.mem_singleton]
      intro hkk
      exact hnd'.1 (hkk ▸ hk)

theorem dictOfList_nodup {α : Type} (keyOf : α → String) (l : List α)
    (hnd : (l.map keyOf).Nodup) :
    dictOfList keyOf l = l.map (fun x => (keyOf x, x)) := by
  have := dictOfList_nodup_aux keyOf l [] hnd (by simp)
  simpa [dictOfList] using this

theorem voteScore_append_single (votes : List Vote) (v : Vote) (u c k : String) :
    voteScore (votes ++ [v]) u c k =
      if v.userId = u ∧ v.candidateId = c ∧ v.criteriaId = k then some v.scoreValue
      else voteScore votes u c k := by
  simp [voteScore, List.foldl_append]

theorem voteScore_eq_none (u c k : String) : ∀ votes : List Vote,
    (∀ v ∈ votes, ¬(v.userId = u ∧ v.candidateId = c ∧ v.criteriaId = k)) →
    voteScore votes u c k = none
  | [], _ => rfl
  | v :: rest, h => by
    show rest.foldl _ (if v.userId = u ∧ v.candidateId = c ∧ v.criteriaId = k
        then some v.scoreValue else none) = none
    rw [if_neg (h v (List.mem_cons_self _ _))]
    exact voteScore_eq_none u c k rest (fun w hw => h w (List.mem_cons_of_mem _ hw))

theorem userIds_append_single (votes : List Vote) (v : Vote) :
    userIds (votes ++ [v]) =
      if v.userId ∈ userIds votes then userIds votes else userIds votes ++ [v.userId] := by
  simp [userIds, List.foldl_append]

theorem foldl_mul_eq_prod {X : Type} (f : X → ℝ) :
    ∀ (l : List X) (a : ℝ), l.foldl (fun p x => p * f x) a = a * (l.map f).prod
  | [], a => by simp
  | x :: l, a => by
    simp only [List.foldl_cons, List.map_cons, List.prod_cons]
    rw [foldl_mul_eq_prod f l (a * f x), mul_assoc]

theorem wpScore_eq_prod (crits : List Criterion) (votes : List Vote) (u cid : String) :
    wpScore crits votes u cid = ((dictOfList Criterion.id crits).map (wpTerm votes u cid)).prod := by
  rw [wpScore, foldl_mul_eq_prod, one_mul]

theorem bordaPoints_of_not_mem (N : ℕ) : ∀ (i : ℕ) (r : List String) (cid : String),
    cid ∉ r → bordaPoints N i r cid = 0
  | _, [], _, _ => rfl
  | i, c :: rest, cid, h => by
    have hc : c ≠ cid := fun hh => h (hh ▸ List.mem_cons_self c rest)
    simp only [bordaPoints, if_neg hc, zero_add]
    exact bordaPoints_of_not_mem N (i + 1) rest cid (fun hh => h (List.mem_cons_of_mem c hh))

theorem bordaPoints_get (N : ℕ) : ∀ (r : List String) (i j : ℕ) (hj : j < r.length),
    r.Nodup → bordaPoints N i r (r.get ⟨j, hj⟩) = N - (i + j)
  | c :: rest, i, 0, hj, hnd => by
    have h1 : (c :: rest).get ⟨0, hj⟩ = c := rfl
    rw [h1]
    simp only [bordaPoints, if_pos rfl]
    rw [bordaPoints_of_not_mem N (i + 1) rest c (List.nodup_cons.mp hnd).1]
    simp
  | c :: rest, i, j + 1, hj, hnd => by
    have h1 : (c :: rest).get ⟨j + 1, hj⟩ = rest.get ⟨j, Nat.lt_of_succ_lt_succ hj⟩ := rfl
    rw [h1]
    have hmem : rest.get ⟨j, Nat.lt_of_succ_lt_succ hj⟩ ∈ rest := rest.get_mem _ _
    have hc : c ≠ rest.get ⟨j, Nat.lt_of_succ_lt_succ hj⟩ :=
      fun hh => (List.nodup_cons.mp hnd).1 (hh ▸ hmem)
    simp only [bordaPoints, if_neg hc, zero_add]
    rw [bordaPoints_get N rest (i + 1) j (Nat.lt_of_succ_lt_succ hj) (List.nodup_cons.mp hnd).2]
    omega

theorem sum_map_zero {γ : Type} : ∀ l : List γ, (l.map (fun _ => (0 : ℕ))).sum = 0
  | [] => rfl
  | a :: l => by simp [sum_map_zero l]

theorem sum_map_add {γ : Type} (f g : γ → ℕ) :
    ∀ l : List γ, (l.map (fun b => f b + g b)).sum = (l.map f).sum + (l.map g).sum
  | [] => rfl
  | a :: l => by
    simp only [List.map_cons, List.sum_cons, sum_map_add f g l]
    omega

theorem sum_map_swap {α γ : Type} (f : α → γ → ℕ) :
    ∀ (l₁ : List α) (l₂ : List γ),
      (l₁.map (fun a => (l₂.map (f a)).sum)).sum
        = (l₂.map (fun b => (l₁.map (fun a => f a b)).sum)).sum
  | [], l₂ => by simp [sum_map_zero]
  | a :: l₁, l₂ => by
    simp only [List.map_cons, List.sum_cons, sum_map_swap f l₁ l₂]
    rw [sum_map_add]

theorem wpScore_congr_votes (crits : List Criterion) (v₁ v₂ : List Vote) (u cid : String)
    (hs : ∀ k ∈ crits.map Criterion.id,
      (voteScore v₁ u cid k).getD 1 = (voteScore v₂ u cid k).getD 1) :
    wpScore crits v₁ u cid = wpScore crits v₂ u cid := by
  rw [wpScore_eq_prod, wpScore_eq_prod]
  congr 1
  apply List.map_congr_left
  intro kv hkv
  unfold wpTerm
  rw [hs kv.1 (dict_keys_sub _ _ _ hkv)]

theorem userRanking_congr_votes (cands : List Candidate) (crits : List Criterion)
    (v₁ v₂ : List Vote) (u : String)
    (hs : ∀ c ∈ cands.map Candidate.id, ∀ k ∈ crits.map Criterion.id,
      (voteScore v₁ u c k).getD 1 = (voteScore v₂ u c k).getD 1) :
    userRanking cands crits v₁ u = userRanking cands crits v₂ u := by
  unfold userRanking
  exact sortDesc_congr _ _ _ (fun cid hcid => wpScore_congr_votes crits v₁ v₂ u cid (hs cid hcid))

theorem results_congr_votes (cands : List Candidate) (crits : List Criterion)
    (v₁ v₂ : List Vote) (hu : userIds v₁ = userIds v₂)
    (hs : ∀ u : String, ∀ c ∈ cands.map Candidate.id, ∀ k ∈ crits.map Criterion.id,
      (voteScore v₁ u c k).getD 1 = (voteScore v₂ u c k).getD 1) :
    results cands crits v₁ = results cands crits v₂ := by
  have hrank : ∀ u, userRanking cands crits v₁ u = userRanking cands crits v₂ u :=
    fun u => userRanking_congr_votes cands crits v₁ v₂ u (hs u)
  have htot : ∀ cid, totalPoints cands crits v₁ cid = totalPoints cands crits v₂ cid := by
    intro cid
    unfold totalPoints
    rw [hu]
    refine congrArg List.sum (List.map_congr_left ?_)
    intro u _
    rw [hrank u]
  have henr : enriched cands crits v₁ = enriched cands crits v₂ := by
    unfold enriched
    refine List.map_congr_left ?_
    intro cid _
    rw [htot cid]
  unfold results sortedEnriched
  rw [henr]

theorem enriched_map_points (cands : List Candidate) (crits : List Criterion)
    (votes : List Vote) :
    (enriched cands crits votes).map PreResult.totalBordaPoints
      = (cands.map Candidate.id).map (totalPoints cands crits votes) := by
  unfold enriched
  rw [List.map_map]
  rfl

theorem enriched_map_cid (cands : List Candidate) (crits : List Criterion)
    (votes : List Vote) :
    (enriched cands crits votes).map PreResult.candidateId = cands.map Candidate.id := by
  unfold enriched
  rw [List.map_map]
  exact List.map_id' _

theorem insertDesc_cons_pos {α β : Type} [LinearOrder β] (key : α → β) (x y : α) (ys : List α)
    (h : key y ≤ key x) : insertDesc key x (y :: ys) = x :: y :: ys := by
  simp [insertDesc, h]

theorem insertDesc_cons_neg {α β : Type} [LinearOrder β] (key : α → β) (x y : α) (ys : List α)
    (h : ¬ key y ≤ key x) : insertDesc key x (y :: ys) = y :: insertDesc key x ys := by
  simp [insertDesc, h]

theorem wpScore_nil_crits (votes : List Vote) (u cid : String) :
    wpScore [] votes u cid = 1 := rfl

theorem wpScore_single (crit : Criterion) (votes : List Vote) (u cid : String) :
    wpScore [crit] votes u cid
      = wpFactor crit
          (((max 1 (min 100 ((voteScore votes u cid crit.id).getD 1)) : ℤ) : ℝ) / 100) := by
  show 1 * wpTerm votes u cid (crit.id, crit) = _
  rw [one_mul]
  rfl

theorem wpFactor_benefit_one (x : ℝ) : wpFactor exCritB x = x := by
  unfold wpFactor
  rw [if_neg (by decide : ¬ (exCritB.type = "Cost"))]
  rw [show ((exCritB.weight : ℚ) : ℝ) = 1 by norm_num [exCritB]]
  exact Real.rpow_one x

theorem wpFactor_cost_one (x : ℝ) : wpFactor exCritCost x = x⁻¹ := by
  unfold wpFactor
  rw [if_pos (by decide : exCritCost.type = "Cost")]
  rw [show (((if exCritCost.weight ≠ 0 then -exCritCost.weight else 0) : ℚ) : ℝ) = -1 by
    norm_num [exCritCost]]
  exact Real.rpow_neg_one x

theorem userRanking_exCands2_nil_crits (votes : List Vote) (u : String) :
    userRanking exCands2 [] votes u = ["c1", "c2"] := by
  unfold userRanking sortDesc
  rw [show exCands2.map Candidate.id = ["c1", "c2"] from rfl]
  rw [List.foldr_cons, List.foldr_cons, List.foldr_nil]
  rw [show insertDesc (fun cid => wpScore [] votes u cid) "c2" [] = ["c2"] from rfl]
  exact insertDesc_cons_pos _ "c1" "c2" [] (le_refl (1 : ℝ))

theorem totalPoints_single_user (cands : List Candidate) (crits : List Criterion)
    (votes : List Vote) (u : String) (r : List String) (cid : String)
    (hu : userIds votes = [u]) (hr : userRanking cands crits votes u = r) :
    totalPoints cands crits votes cid = bordaPoints cands.length 0 r cid := by
  unfold totalPoints
  rw [hu]
  simp only [List.map_cons, List.map_nil, hr, List.sum_cons, List.sum_nil]
  omega

theorem enriched_exCands2 (crits : List Criterion) (votes : List Vote) (t1 t2 : ℕ)
    (h1 : totalPoints exCands2 crits votes "c1" = t1)
    (h2 : totalPoints exCands2 crits votes "c2" = t2) :
    enriched exCands2 crits votes =
      [⟨"c1", "Alice", "Engineer", none, t1⟩, ⟨"c2", "Bob", "Engineer", none, t2⟩] := by
  unfold enriched
  rw [show exCands2.map Candidate.id = ["c1", "c2"] from rfl]
  simp only [List.map_cons, List.map_nil, h1, h2]
  rfl

theorem enriched_exCands3 (crits : List Criterion) (votes : List Vote) (t1 t2 t3 : ℕ)
    (h1 : totalPoints exCands3 crits votes "c1" = t1)
    (h2 : totalPoints exCands3 crits votes "c2" = t2)
    (h3 : totalPoints exCands3 crits votes "c3" = t3) :
    enriched exCands3 crits votes =
      [⟨"c1", "Alice", "Engineer", none, t1⟩, ⟨"c2", "Bob", "Engineer", none, t2⟩,
        ⟨"c3", "Carla", "Engineer", none, t3⟩] := by
  unfold enriched
  rw [show exCands3.map Candidate.id = ["c1", "c2", "c3"] from rfl]
  simp only [List.map_cons, List.map_nil, h1, h2, h3]
  rfl

theorem results_exCands2_nil_votes (crits : List Criterion) :
    results exCands2 crits [] =
      [⟨"c1", "Alice", "Engineer", none, 0, 1⟩, ⟨"c2", "Bob", "Engineer", none, 0, 1⟩] := by
  unfold results sortedEnriched
  rw [enriched_exCands2 crits [] 0 0 rfl rfl]
  rfl

theorem tot_ex1_c1 : totalPoints exCands2 [] exVotes1 "c1" = 2 := by
  rw [totalPoints_single_user exCands2 [] exVotes1 "u1" ["c1", "c2"] "c1" rfl
    (userRanking_exCands2_nil_crits exVotes1 "u1")]
  decide

theorem tot_ex1_c2 : totalPoints exCands2 [] exVotes1 "c2" = 1 := by
  rw [totalPoints_single_user exCands2 [] exVotes1 "u1" ["c1", "c2"] "c2" rfl
    (userRanking_exCands2_nil_crits exVotes1 "u1")]
  decide

theorem results_ex1 : results exCands2 [] exVotes1 =
    [⟨"c1", "Alice", "Engineer", none, 2, 1⟩, ⟨"c2", "Bob", "Engineer", none, 1, 2⟩] := by
  unfold results sortedEnriched
  rw [enriched_exCands2 [] exVotes1 2 1 tot_ex1_c1 tot_ex1_c2]
  rfl

theorem tot_stray_c1 : totalPoints exCands2 [] [exStray] "c1" = 2 := by
  rw [totalPoints_single_user exCands2 [] [exStray] "u1" ["c1", "c2"] "c1" rfl
    (userRanking_exCands2_nil_crits [exStray] "u1")]
  decide

theorem tot_stray_c2 : totalPoints exCands2 [] [exStray] "c2" = 1 := by
  rw [totalPoints_single_user exCands2 [] [exStray] "u1" ["c1", "c2"] "c2" rfl
    (userRanking_exCands2_nil_crits [exStray] "u1")]
  decide

theorem results_stray : results exCands2 [] [exStray] =
    [⟨"c1", "Alice", "Engineer", none, 2, 1⟩, ⟨"c2", "Bob", "Engineer", none, 1, 2⟩] := by
  unfold results sortedEnriched
  rw [enriched_exCands2 [] [exStray] 2 1 tot_stray_c1 tot_stray_c2]
  rfl

theorem wpC4_c1 : wpScore [exCritB] exVotesC4 "u1" "c1" = 1 / 100 := by
  rw [wpScore_single]
  rw [show (voteScore exVotesC4 "u1" "c1" exCritB.id).getD 1 = 1 from rfl]
  rw [wpFactor_benefit_one]
  norm_num

theorem wpC4_c2 : wpScore [exCritB] exVotesC4 "u1" "c2" = 1 / 100 := by
  rw [wpScore_single]
  rw [show (voteScore exVotesC4 "u1" "c2" exCritB.id).getD 1 = 1 from rfl]
  rw [wpFactor_benefit_one]
  norm_num

theorem ranking_c4 : userRanking exCands2 [exCritB] exVotesC4 "u1" = ["c1", "c2"] := by
  unfold userRanking sortDesc
  rw [show exCands2.map Candidate.id = ["c1", "c2"] from rfl]
  rw [List.foldr_cons, List.foldr_cons, List.foldr_nil]
  rw [show insertDesc (fun cid => wpScore [exCritB] exVotesC4 "u1" cid) "c2" [] = ["c2"] from rfl]
  refine insertDesc_cons_pos _ "c1" "c2" [] ?_
  show wpScore [exCritB] exVotesC4 "u1" "c2" ≤ wpScore [exCritB] exVotesC4 "u1" "c1"
  rw [wpC4_c1, wpC4_c2]

theorem tot_c4_c1 : totalPoints exCands2 [exCritB] exVotesC4 "c1" = 2 := by
  rw [totalPoints_single_user exCands2 [exCritB] exVotesC4 "u1" ["c1", "c2"] "c1" rfl ranking_c4]
  decide

theorem tot_c4_c2 : totalPoints exCands2 [exCritB] exVotesC4 "c2" = 1 := by
  rw [totalPoints_single_user exCands2 [exCritB] exVotesC4 "u1" ["c1", "c2"] "c2" rfl ranking_c4]
  decide

theorem results_c4 : results exCands2 [exCritB] exVotesC4 =
    [⟨"c1", "Alice", "Engineer", none, 2, 1⟩, ⟨"c2", "Bob", "Engineer", none, 1, 2⟩] := by
  unfold results sortedEnriched
  rw [enriched_exCands2 [exCritB] exVotesC4 2 1 tot_c4_c1 tot_c4_c2]
  rfl

theorem wp7_c1 : wpScore [exCritCost] exVotes7 "u1" "c1" = 5 / 4 := by
  rw [wpScore_single]
  rw [show (voteScore exVotes7 "u1" "c1" exCritCost.id).getD 1 = 80 from rfl]
  rw [wpFactor_cost_one]
  norm_num

theorem wp7_c2 : wpScore [exCritCost] exVotes7 "u1" "c2" = 5 := by
  rw [wpScore_single]
  rw [show (voteScore exVotes7 "u1" "c2" exCritCost.id).getD 1 = 20 from rfl]
  rw [wpFactor_cost_one]
  norm_num

theorem ranking_7 : userRanking exCands2 [exCritCost] exVotes7 "u1" = ["c2", "c1"] := by
  unfold userRanking sortDesc
  rw [show exCands2.map Candidate.id = ["c1", "c2"] from rfl]
  rw [List.foldr_cons, List.foldr_cons, List.foldr_nil]
  rw [show insertDesc (fun cid => wpScore [exCritCost] exVotes7 "u1" cid) "c2" [] = ["c2"]
    from rfl]
  rw [insertDesc_cons_neg _ "c1" "c2" [] ?_]
  · rfl
  · show ¬ wpScore [exCritCost] exVotes7 "u1" "c2" ≤ wpScore [exCritCost] exVotes7 "u1" "c1"
    rw [wp7_c1, wp7_c2]
    norm_num

theorem tot_7_c1 : totalPoints exCands2 [exCritCost] exVotes7 "c1" = 1 := by
  rw [totalPoints_single_user exCands2 [exCritCost] exVotes7 "u1" ["c2", "c1"] "c1" rfl ranking_7]
  decide

theorem tot_7_c2 : totalPoints exCands2 [exCritCost] exVotes7 "c2" = 2 := by
  rw [totalPoints_single_user exCands2 [exCritCost] exVotes7 "u1" ["c2", "c1"] "c2" rfl ranking_7]
  decide

theorem results_7 : results exCands2 [exCritCost] exVotes7 =
    [⟨"c2", "Bob", "Engineer", none, 2, 1⟩, ⟨"c1", "Alice", "Engineer", none, 1, 2⟩] := by
  unfold results sortedEnriched
  rw [enriched_exCands2 [exCritCost] exVotes7 1 2 tot_7_c1 tot_7_c2]
  rfl

theorem wp8_c1 : wpScore [exCritB] exVotes8 "u1" "c1" = 4 / 5 := by
  rw [wpScore_single]
  rw [show (voteScore exVotes8 "u1" "c1" exCritB.id).getD 1 = 80 from rfl]
  rw [wpFactor_benefit_one]
  norm_num

theorem wp8_c2 : wpScore [exCritB] exVotes8 "u1" "c2" = 3 / 5 := by
  rw [wpScore_single]
  rw [show (voteScore exVotes8 "u1" "c2" exCritB.id).getD 1 = 60 from rfl]
  rw [wpFactor_benefit_one]
  norm_num

theorem wp8_c3 : wpScore [exCritB] exVotes8 "u1" "c3" = 1 := by
  rw [wpScore_single]
  rw [show (voteScore exVotes8 "u1" "c3" exCritB.id).getD 1 = 100 from rfl]
  rw [wpFactor_benefit_one]
  norm_num

theorem ranking_8 : userRanking exCands3 [exCritB] exVotes8 "u1" = ["c3", "c1", "c2"] := by
  unfold userRanking sortDesc
  rw [show exCands3.map Candidate.id = ["c1", "c2", "c3"] from rfl]
  rw [List.foldr_cons, List.foldr_cons, List.foldr_cons, List.foldr_nil]
  rw [show insertDesc (fun cid => wpScore [exCritB] exVotes8 "u1" cid) "c3" [] = ["c3"] from rfl]
  rw [insertDesc_cons_neg _ "c2" "c3" [] ?_]
  · rw [show insertDesc (fun cid => wpScore [exCritB] exVotes8 "u1" cid) "c2" [] = ["c2"]
      from rfl]
    rw [insertDesc_cons_neg _ "c1" "c3" ["c2"] ?_]
    · rw [insertDesc_cons_pos _ "c1" "c2" [] ?_]
      show wpScore [exCritB] exVotes8 "u1" "c2" ≤ wpScore [exCritB] exVotes8 "u1" "c1"
      rw [wp8_c1, wp8_c2]
      norm_num
    · show ¬ wpScore [exCritB] exVotes8 "u1" "c3" ≤ wpScore [exCritB] exVotes8 "u1" "c1"
      rw [wp8_c1, wp8_c3]
      norm_num
  · show ¬ wpScore [exCritB] exVotes8 "u1" "c3" ≤ wpScore [exCritB] exVotes8 "u1" "c2"
    rw [wp8_c2, wp8_c3]
    norm_num

theorem tot_8_c1 : totalPoints exCands3 [exCritB] exVotes8 "c1" = 2 := by
  rw [totalPoints_single_user exCands3 [exCritB] exVotes8 "u1" ["c3", "c1", "c2"] "c1" rfl
    ranking_8]
  decide

theorem tot_8_c2 : totalPoints exCands3 [exCritB] exVotes8 "c2" = 1 := by
  rw [totalPoints_single_user exCands3 [exCritB] exVotes8 "u1" ["c3", "c1", "c2"] "c2" rfl
    ranking_8]
  decide

theorem tot_8_c3 : totalPoints exCands3 [exCritB] exVotes8 "c3" = 3 := by
  rw [totalPoints_single_user exCands3 [exCritB] exVotes8 "u1" ["c3", "c1", "c2"] "c3" rfl
    ranking_8]
  decide

theorem results_8 : results exCands3 [exCritB] exVotes8 =
    [⟨"c3", "Carla", "Engineer", none, 3, 1⟩, ⟨"c1", "Alice", "Engineer", none, 2, 2⟩,
      ⟨"c2", "Bob", "Engineer", none, 1, 3⟩] := by
  unfold results sortedEnriched
  rw [enriched_exCands3 [exCritB] exVotes8 2 1 3 tot_8_c1 tot_8_c2 tot_8_c3]
  rfl

theorem rankAssign_get_zero (e : PreResult) (rest : List PreResult) (k r : ℕ)
    (last : Option ℕ) (a : RankedResult)
    (ha : (rankAssign k r last (e :: rest)).get? 0 = some a) :
    a = ⟨e.candidateId, e.name, e.position, e.photo_url, e.totalBordaPoints,
      if some e.totalBordaPoints = last then r else k⟩ := by
  rw [rankAssign_cons] at ha
  simp only [List.get?] at ha
  exact (Option.some_injective _ ha).symm

theorem rankAssign_rank_le : ∀ (xs : List PreResult) (k r : ℕ) (last : Option ℕ), r ≤ k →
    ∀ (j : ℕ) (a : RankedResult), (rankAssign k r last xs).get? j = some a → a.rank ≤ k + j
  | [], _, _, _, _, j, a, ha => by simp [rankAssign] at ha
  | e :: rest, k, r, last, hrk, 0, a, ha => by
    rw [rankAssign_get_zero e rest k r last a ha]
    by_cases h : some e.totalBordaPoints = last
    · simpa [h] using Nat.le_add_right _ 0 |>.trans (Nat.add_le_add_right hrk 0)
    · simp [h]
  | e :: rest, k, r, last, hrk, j + 1, a, ha => by
    rw [rankAssign_cons] at ha
    simp only [List.get?] at ha
    have hR : (if some e.totalBordaPoints = last then r else k) ≤ k + 1 := by
      by_cases h : some e.totalBordaPoints = last
      · simpa [h] using hrk.trans (Nat.le_succ k)
      · simp [h, Nat.le_succ k]
    have := rankAssign_rank_le rest (k + 1)
      (if some e.totalBordaPoints = last then r else k) (some e.totalBordaPoints) hR j a ha
    omega

theorem rankAssign_get_step : ∀ (xs : List PreResult) (k r : ℕ) (last : Option ℕ) (j : ℕ)
    (a b : RankedResult),
    (rankAssign k r last xs).get? j = some a →
    (rankAssign k r last xs).get? (j + 1) = some b →
    (b.totalBordaPoints = a.totalBordaPoints → b.rank = a.rank) ∧
    (b.totalBordaPoints ≠ a.totalBordaPoints → b.rank = k + (j + 1))
  | [], _, _, _, j, a, b, ha, _ => by simp [rankAssign] at ha
  | [e], k, r, last, 0, a, b, ha, hb => by
    rw [rankAssign_cons] at hb
    simp [List.get?, rankAssign] at hb
  | e :: e' :: rest', k, r, last, 0, a, b, ha, hb => by
    have hb0 : (rankAssign (k + 1) (if some e.totalBordaPoints = last then r else k)
        (some e.totalBordaPoints) (e' :: rest')).get? 0 = some b := by
      rw [rankAssign_cons] at hb
      simpa [List.get?] using hb
    have ha' := rankAssign_get_zero e (e' :: rest') k r last a ha
    have hb' := rankAssign_get_zero e' rest' (k + 1)
      (if some e.totalBordaPoints = last then r else k) (some e.totalBordaPoints) b hb0
    rw [ha', hb']
    constructor
    · intro hpts
      simp only at hpts
      simp [hpts]
    · intro hpts
      simp only at hpts
      simp only
      rw [if_neg (fun h => hpts (Option.some_injective _ h))]
  | e :: rest, k, r, last, j + 1, a, b, ha, hb => by
    rw [rankAssign_cons] at ha hb
    simp only [List.get?] at ha hb
    have := rankAssign_get_step rest (k + 1)
      (if some e.totalBordaPoints = last then r else k) (some e.totalBordaPoints) j a b ha hb
    exact ⟨this.1, fun hpts => by rw [this.2 hpts]; omega⟩

theorem rankAssign_first (xs : List PreResult) (a : RankedResult)
    (ha : (rankAssign 1 0 none xs).get? 0 = some a) : a.rank = 1 := by
  match xs, ha with
  | e :: rest, ha =>
    rw [rankAssign_get_zero e rest 1 0 none a ha]
    simp

theorem borda_sum_nodup (N : ℕ) : ∀ (r : List String) (i : ℕ), r.Nodup → i + r.length = N →
    2 * ((r.map (fun cid => bordaPoints N i r cid)).sum) = r.length * (r.length + 1)
  | [], i, _, _ => by simp
  | c :: rest, i, hnd, hlen => by
    have hnmem : c ∉ rest := (List.nodup_cons.mp hnd).1
    have hndr : rest.Nodup := (List.nodup_cons.mp hnd).2
    have hhead : bordaPoints N i (c :: rest) c = N - i := by
      simp only [bordaPoints, if_pos rfl]
      rw [bordaPoints_of_not_mem N (i + 1) rest c hnmem]
      simp
    have hrest : (rest.map (fun cid => bordaPoints N i (c :: rest) cid)).sum
        = (rest.map (fun cid => bordaPoints N (i + 1) rest cid)).sum := by
      refine congrArg List.sum (List.map_congr_left ?_)
      intro cid hcid
      have hne : c ≠ cid := fun h => hnmem (h ▸ hcid)
      simp only [bordaPoints, if_neg hne, zero_add]
    have hlen' : (i + 1) + rest.length = N := by
      simp only [List.length_cons] at hlen
      omega
    have ih := borda_sum_nodup N rest (i + 1) hndr hlen'
    simp only [List.map_cons, List.sum_cons, hhead, hrest, List.length_cons]
    have hNi : N - i = rest.length + 1 := by omega
    rw [hNi]
    have h2 : 2 * (rest.length + 1 + (rest.map (fun cid => bordaPoints N (i + 1) rest cid)).sum)
        = 2 * (rest.length + 1)
          + 2 * (rest.map (fun cid => bordaPoints N (i + 1) rest cid)).sum := by ring
    rw [h2, ih]
    ring

theorem results_nil (crits : List Criterion) (votes : List Vote) :
    results [] crits votes = [] := rfl

theorem results_cons (cands : List Candidate) (crits : List Criterion) (votes : List Vote)
    (hc : cands ≠ []) :
    results cands crits votes = rankAssign 1 0 none (sortedEnriched cands crits votes) := by
  unfold results
  rw [if_neg (fun h => hc (by simpa using h))]

/-- C1: If the candidate list is empty the engine returns an empty ranked list,
whatever the criteria and votes are; otherwise the output carries exactly one
`RankedResult` per input candidate (its candidateIds are a permutation of the
input candidate ids) and is sorted in descending order of `totalBordaPoints`,
each entry carrying a `rank` field. -/
theorem c1_results_shape (cands : List Candidate) (crits : List Criterion) (votes : List Vote) :
    (cands = [] → results cands crits votes = []) ∧
    List.Perm ((results cands crits votes).map RankedResult.candidateId)
      (cands.map Candidate.id) ∧
    (results cands crits votes).Sorted
      (fun a b => b.totalBordaPoints ≤ a.totalBordaPoints) := by
  refine ⟨fun h => by rw [h]; rfl, ?_, ?_⟩
  · by_cases hc : cands = []
    · rw [hc, results_nil]
      exact List.Perm.refl _
    · rw [results_cons cands crits votes hc, rankAssign_map_cid]
      have hperm := (sortDesc_perm (fun e : PreResult => e.totalBordaPoints)
        (enriched cands crits votes)).map PreResult.candidateId
      rw [enriched_map_cid] at hperm
      exact hperm
  · by_cases hc : cands = []
    · rw [hc, results_nil]
      exact List.sorted_nil
    · rw [results_cons cands crits votes hc]
      have hs : (sortedEnriched cands crits votes).Sorted
          (fun a b => b.totalBordaPoints ≤ a.totalBordaPoints) :=
        sorted_sortDesc (fun e : PreResult => e.totalBordaPoints) (enriched cands crits votes)
      have h1 : ((sortedEnriched cands crits votes).map PreResult.totalBordaPoints).Pairwise
          (fun x y => y ≤ x) := List.pairwise_map.mpr hs
      rw [← rankAssign_map_points (sortedEnriched cands crits votes) 1 0 none] at h1
      exact List.pairwise_map.mp h1

/-- Witness for C1 at concrete inputs: the empty-candidate case yields an empty
list, and on a two-candidate input the output ids are a permutation of the
candidate ids. -/
theorem c1_witness :
    results ([] : List Candidate) [] [] = [] ∧
    List.Perm ((results exCands2 [] exVotes1).map RankedResult.candidateId)
      (exCands2.map Candidate.id) :=
  ⟨(c1_results_shape [] [] []).1 rfl, (c1_results_shape exCands2 [] exVotes1).2.1⟩

/-- C2: For a user who cast at least one vote (with distinct candidate ids, as
the data model requires): the user's Stage-A preference list is a permutation
of all candidate ids (so candidates the user never scored still appear); the
candidate at 0-based position j of that list receives N - j Borda points from
this user (N points for the 1st down to 1 for the last, N the number of
candidates); every candidate earns at least 1 point from this user; and each
output row's totalBordaPoints is the sum of the per-user points over all users
who cast at least one vote. -/
theorem c2_borda_points (cands : List Candidate) (crits : List Criterion) (votes : List Vote)
    (u : String) (hnd : (cands.map Candidate.id).Nodup) (hu : u ∈ userIds votes) :
    List.Perm (userRanking cands crits votes u) (cands.map Candidate.id) ∧
    (∀ (j : ℕ) (hj : j < (userRanking cands crits votes u).length),
      bordaPoints cands.length 0 (userRanking cands crits votes u)
        ((userRanking cands crits votes u).get ⟨j, hj⟩) = cands.length - j) ∧
    (∀ cid ∈ cands.map Candidate.id,
      1 ≤ bordaPoints cands.length 0 (userRanking cands crits votes u) cid) ∧
    (∀ res ∈ results cands crits votes, res.totalBordaPoints =
      ((userIds votes).map
        (fun u' => bordaPoints cands.length 0 (userRanking cands crits votes u')
          res.candidateId)).sum) := by
  have hperm : List.Perm (userRanking cands crits votes u) (cands.map Candidate.id) :=
    sortDesc_perm _ _
  have hndr : (userRanking cands crits votes u).Nodup := hperm.nodup_iff.mpr hnd
  have hlen : (userRanking cands crits votes u).length = cands.length := by
    rw [hperm.length_eq, List.length_map]
  refine ⟨hperm, ?_, ?_, ?_⟩
  · intro j hj
    rw [bordaPoints_get cands.length (userRanking cands crits votes u) 0 j hj hndr]
    rw [Nat.zero_add]
  · intro cid hcid
    have hmem : cid ∈ userRanking cands crits votes u := hperm.mem_iff.mpr hcid
    obtain ⟨⟨j, hj⟩, hget⟩ := List.mem_iff_get.mp hmem
    rw [← hget, bordaPoints_get cands.length (userRanking cands crits votes u) 0 j hj hndr]
    have : j < cands.length := hlen ▸ hj
    omega
  · intro res hres
    by_cases hc : cands = []
    · rw [hc, results_nil] at hres
      exact absurd hres (List.not_mem_nil res)
    · rw [results_cons cands crits votes hc] at hres
      have h1 : res.toPre ∈ sortedEnriched cands crits votes :=
        rankAssign_mem _ _ _ _ hres
      have h2 : res.toPre ∈ enriched cands crits votes :=
        (sortDesc_perm _ _).mem_iff.mp h1
      unfold enriched at h2
      obtain ⟨cid, hcid, heq⟩ := List.mem_map.mp h2
      have hpts : totalPoints cands crits votes cid = res.totalBordaPoints :=
        congrArg PreResult.totalBordaPoints heq
      have hcid' : cid = res.candidateId := congrArg PreResult.candidateId heq
      rw [← hcid']
      exact hpts.symm

/-- Witness for C2: discharge both hypotheses on the concrete two-candidate,
one-vote input and read off the permutation property. -/
theorem c2_witness :
    ((exCands2.map Candidate.id).Nodup ∧ "u1" ∈ userIds exVotes1) ∧
    List.Perm (userRanking exCands2 [] exVotes1 "u1") (exCands2.map Candidate.id) :=
  ⟨⟨by decide, by decide⟩,
    (c2_borda_points exCands2 [] exVotes1 "u1" (by decide) (by decide)).1⟩

/-- C3: In the final list (sorted descending by totalBordaPoints) ranks follow
dense competition ranking: the first item has rank 1; a subsequent item has
the same rank as its predecessor exactly when their point totals are equal,
and otherwise its rank is its 1-based position in the sorted sequence. -/
theorem c3_dense_ranks (cands : List Candidate) (crits : List Criterion) (votes : List Vote) :
    (∀ h0 : 0 < (results cands crits votes).length,
      ((results cands crits votes).get ⟨0, h0⟩).rank = 1) ∧
    (∀ (i : ℕ) (hi : i + 1 < (results cands crits votes).length),
      (((results cands crits votes).get ⟨i + 1, hi⟩).rank
          = ((results cands crits votes).get ⟨i, Nat.lt_of_succ_lt hi⟩).rank ↔
        ((results cands crits votes).get ⟨i + 1, hi⟩).totalBordaPoints
          = ((results cands crits votes).get ⟨i, Nat.lt_of_succ_lt hi⟩).totalBordaPoints) ∧
      (((results cands crits votes).get ⟨i + 1, hi⟩).totalBordaPoints
          ≠ ((results cands crits votes).get ⟨i, Nat.lt_of_succ_lt hi⟩).totalBordaPoints →
        ((results cands crits votes).get ⟨i + 1, hi⟩).rank = i + 2)) := by
  by_cases hc : cands = []
  · constructor
    · intro h0
      rw [hc, results_nil] at h0
      exact absurd h0 (by simp)
    · intro i hi
      rw [hc, results_nil] at hi
      exact absurd hi (by simp)
  · have hres := results_cons cands crits votes hc
    constructor
    · intro h0
      have ha : (rankAssign 1 0 none (sortedEnriched cands crits votes)).get? 0
          = some ((results cands crits votes).get ⟨0, h0⟩) := by
        rw [← hres]
        exact List.get?_eq_get h0
      exact rankAssign_first _ _ ha
    · intro i hi
      have ha : (rankAssign 1 0 none (sortedEnriched cands crits votes)).get? i
          = some ((results cands crits votes).get ⟨i, Nat.lt_of_succ_lt hi⟩) := by
        rw [← hres]
        exact List.get?_eq_get (Nat.lt_of_succ_lt hi)
      have hb : (rankAssign 1 0 none (sortedEnriched cands crits votes)).get? (i + 1)
          = some ((results cands crits votes).get ⟨i + 1, hi⟩) := by
        rw [← hres]
        exact List.get?_eq_get hi
      have hstep := rankAssign_get_step (sortedEnriched cands crits votes) 1 0 none i _ _ ha hb
      have hle := rankAssign_rank_le (sortedEnriched cands crits votes) 1 0 none
        (Nat.zero_le 1) i _ ha
      constructor
      · constructor
        · intro hrank
          by_contra hpts
          have h2 := hstep.2 hpts
          omega
        · exact hstep.1
      · intro hpts
        have := hstep.2 hpts
        omega

/-- Witness for C3 on the concrete one-vote input: the first output row has
rank 1 and, its points differing from the first row's, the second row has
rank 2. -/
theorem c3_witness :
    ((results exCands2 [] exVotes1).get
      ⟨0, by rw [results_ex1]; decide⟩).rank = 1 ∧
    ((results exCands2 [] exVotes1).get
      ⟨1, by rw [results_ex1]; decide⟩).rank = 2 := by
  have h0 : (0 : ℕ) < (results exCands2 [] exVotes1).length := by rw [results_ex1]; decide
  have h1 : (1 : ℕ) < (results exCands2 [] exVotes1).length := by rw [results_ex1]; decide
  have e0 : (results exCands2 [] exVotes1).get ⟨0, h0⟩
      = ⟨"c1", "Alice", "Engineer", none, 2, 1⟩ :=
    Option.some_injective _ ((List.get?_eq_get h0).symm.trans (by rw [results_ex1]; rfl))
  have e1 : (results exCands2 [] exVotes1).get ⟨1, h1⟩
      = ⟨"c2", "Bob", "Engineer", none, 1, 2⟩ :=
    Option.some_injective _ ((List.get?_eq_get h1).symm.trans (by rw [results_ex1]; rfl))
  constructor
  · exact (c3_dense_ranks exCands2 [] exVotes1).1 h0
  · refine ((c3_dense_ranks exCands2 [] exVotes1).2 0 h1).2 ?_
    rw [e0, e1]
    decide

/-- Counterexample to C4 as stated: user u1 has no recorded score for the pair
(c1, k1), yet adding the explicit scoreValue-1 vote changes the engine output.
With no other vote, u1 is absent from the voter set without the vote (all
totals 0, both ranks 1) and present with it (totals 2 and 1, ranks 1 and 2). -/
theorem c4_counterexample :
    voteScore [] "u1" "c1" "k1" = none ∧
    results exCands2 [exCritB] ([] ++ [exVoteC4]) ≠ results exCands2 [exCritB] [] := by
  refine ⟨rfl, ?_⟩
  rw [show ([] : List Vote) ++ [exVoteC4] = exVotesC4 from rfl]
  rw [results_c4, results_exCands2_nil_votes]
  decide

/-- C4 amended: for a user who cast at least one vote, a missing
(candidate, criterion) score and an explicit vote with scoreValue 1 for that
pair produce exactly the same engine output (both feed the default score 1
into the same normalized factor). The restriction to users already in the
voter set is forced by the counterexample: for anyone else the explicit vote
creates a new Borda voter. -/
theorem c4_default_score_equiv (cands : List Candidate) (crits : List Criterion)
    (votes : List Vote) (u c k : String) (hu : u ∈ userIds votes)
    (hnone : ∀ v ∈ votes, ¬(v.userId = u ∧ v.candidateId = c ∧ v.criteriaId = k)) :
    results cands crits (votes ++ [⟨u, c, k, 1⟩]) = results cands crits votes := by
  apply results_congr_votes
  · rw [userIds_append_single, if_pos hu]
  · intro u' c' hc' k' hk'
    rw [voteScore_append_single]
    by_cases hm : (Vote.mk u c k 1).userId = u' ∧ (Vote.mk u c k 1).candidateId = c'
        ∧ (Vote.mk u c k 1).criteriaId = k'
    · rw [if_pos hm]
      obtain ⟨h1, h2, h3⟩ := hm
      have hnone' : voteScore votes u' c' k' = none := by
        apply voteScore_eq_none
        intro v hv hmatch
        apply hnone v hv
        rw [← h1, ← h2, ← h3] at hmatch
        exact hmatch
      rw [hnone']
      rfl
    · rw [if_neg hm]

/-- Witness for C4 (amended): for the voting user u1, appending an explicit
scoreValue-1 vote for the never-scored pair (c1, k9) leaves the output
unchanged. -/
theorem c4_witness :
    results exCands2 [exCritB] (exVotes7 ++ [⟨"u1", "c1", "k9", 1⟩])
      = results exCands2 [exCritB] exVotes7 :=
  c4_default_score_equiv exCands2 [exCritB] exVotes7 "u1" "c1" "k9" (by decide) (by decide)

/-- Counterexample to C5 as stated: a vote whose candidateId and criteriaId
exist nowhere still changes the ranked output, because its userId enters the
voter set and that phantom voter contributes a full Borda ranking. -/
theorem c5_counterexample :
    exStray.candidateId ∉ exCands2.map Candidate.id ∧
    exStray.criteriaId ∉ ([] : List Criterion).map Criterion.id ∧
    results exCands2 [] ([] ++ [exStray]) ≠ results exCands2 [] [] := by
  refine ⟨by decide, by decide, ?_⟩
  rw [show ([] : List Vote) ++ [exStray] = [exStray] from rfl]
  rw [results_stray, results_exCands2_nil_votes]
  decide

/-- C5 amended: a vote referencing an unknown candidateId or an unknown
criteriaId never makes the engine fail and is inert — the ranked output is
unchanged by its presence — provided its userId already appears among the
other votes. (Without that proviso the stray vote still creates a new Borda
voter, as the counterexample shows.) -/
theorem c5_stray_votes_inert (cands : List Candidate) (crits : List Criterion)
    (votes : List Vote) (v : Vote)
    (hstray : v.candidateId ∉ cands.map Candidate.id ∨ v.criteriaId ∉ crits.map Criterion.id)
    (hu : v.userId ∈ userIds votes) :
    results cands crits (votes ++ [v]) = results cands crits votes := by
  apply results_congr_votes
  · rw [userIds_append_single, if_pos hu]
  · intro u' c' hc' k' hk'
    rw [voteScore_append_single]
    have hnm : ¬(v.userId = u' ∧ v.candidateId = c' ∧ v.criteriaId = k') := by
      rintro ⟨h1, h2, h3⟩
      rcases hstray with h | h
      · exact h (by rw [h2]; exact hc')
      · exact h (by rw [h3]; exact hk')
    rw [if_neg hnm]

/-- Witness for C5 (amended): appending the doubly-stray vote of the already
voting user u1 leaves the engine output unchanged. -/
theorem c5_witness :
    results exCands2 [exCritB] (exVotes7 ++ [exStray]) = results exCands2 [exCritB] exVotes7 :=
  c5_stray_votes_inert exCands2 [exCritB] exVotes7 exStray (Or.inl (by decide)) (by decide)

theorem rate_find_none (crits : List Criterion) (scores : List ScoreInput)
    (h : ∀ s ∈ scores, ∃ cr ∈ crits, cr.id = s.criteriaId) :
    scores.find? (fun s => !(crits.any (fun c => c.id == s.criteriaId))) = none := by
  rw [List.find?_eq_none]
  intro s hs
  obtain ⟨cr, hcr, hid⟩ := h s hs
  have hany : (crits.any fun c => c.id == s.criteriaId) = true := by
    rw [List.any_eq_true]
    exact ⟨cr, hcr, by simp [hid]⟩
  simp [hany]

/-- Counterexample to C6 as stated: with an empty scores array the first
submission for a pair succeeds (inserting nothing), and an identical second
submission also succeeds instead of being rejected with HTTP 400. -/
theorem c6_counterexample :
    exRateEmpty.scores = [] ∧
    (rateCandidate [exCritB] [] exRateEmpty).2 = RateResult.ok 0 ∧
    (rateCandidate [exCritB] (rateCandidate [exCritB] [] exRateEmpty).1 exRateEmpty).2
      = RateResult.ok 0 ∧
    RateResult.ok 0 ≠ RateResult.err 400 "You have already rated this candidate." := by
  refine ⟨rfl, rfl, rfl, by decide⟩

/-- C6 amended: the `/rate` handler rejects (HTTP 400, store untouched) any
request containing an unknown criteriaId; rejects (HTTP 400, store untouched)
a request for a (userId, candidateId) pair that already has a stored vote;
otherwise appends exactly one vote record per submitted score and returns the
inserted count; and for a request with valid criteria ids, a fresh pair and at
least one score, the first submission succeeds and the identical second one is
rejected with HTTP 400. (The nonempty-scores proviso is forced by the
counterexample: an empty submission inserts nothing and never blocks.) -/
theorem c6_rate_validation (crits : List Criterion) (votes : List Vote) (p : RateRequest) :
    ((∃ s ∈ p.scores, ∀ cr ∈ crits, cr.id ≠ s.criteriaId) →
      (rateCandidate crits votes p).1 = votes ∧
      ∃ d, (rateCandidate crits votes p).2 = RateResult.err 400 d) ∧
    ((∀ s ∈ p.scores, ∃ cr ∈ crits, cr.id = s.criteriaId) →
      (∃ v ∈ votes, v.userId = p.userId ∧ v.candidateId = p.candidateId) →
      rateCandidate crits votes p
        = (votes, RateResult.err 400 "You have already rated this candidate.")) ∧
    ((∀ s ∈ p.scores, ∃ cr ∈ crits, cr.id = s.criteriaId) →
      (∀ v ∈ votes, ¬(v.userId = p.userId ∧ v.candidateId = p.candidateId)) →
      rateCandidate crits votes p
        = (votes ++ p.scores.map
              (fun s => ⟨p.userId, p.candidateId, s.criteriaId, s.scoreValue⟩),
            RateResult.ok p.scores.length)) ∧
    ((∀ s ∈ p.scores, ∃ cr ∈ crits, cr.id = s.criteriaId) →
      (∀ v ∈ votes, ¬(v.userId = p.userId ∧ v.candidateId = p.candidateId)) →
      p.scores ≠ [] →
      (rateCandidate crits ((rateCandidate crits votes p).1) p).2
        = RateResult.err 400 "You have already rated this candidate.") := by
  have part2gen : ∀ w : List Vote, (∀ s ∈ p.scores, ∃ cr ∈ crits, cr.id = s.criteriaId) →
      (∃ v ∈ w, v.userId = p.userId ∧ v.candidateId = p.candidateId) →
      rateCandidate crits w p
        = (w, RateResult.err 400 "You have already rated this candidate.") := by
    intro w hval hdup
    have hany : (w.any fun v => v.userId == p.userId && v.candidateId == p.candidateId)
        = true := by
      obtain ⟨v, hv, h1, h2⟩ := hdup
      rw [List.any_eq_true]
      exact ⟨v, hv, by simp [h1, h2]⟩
    unfold rateCandidate
    rw [rate_find_none crits p.scores hval]
    rw [if_pos hany]
  have part1 : (∃ s ∈ p.scores, ∀ cr ∈ crits, cr.id ≠ s.criteriaId) →
      (rateCandidate crits votes p).1 = votes ∧
      ∃ d, (rateCandidate crits votes p).2 = RateResult.err 400 d := by
    intro hbad
    obtain ⟨s, hs, hbad'⟩ := hbad
    cases hf : p.scores.find? (fun s => !(crits.any (fun c => c.id == s.criteriaId))) with
    | some s' =>
      unfold rateCandidate
      rw [hf]
      exact ⟨rfl, ("Invalid criteria: " ++ s'.criteriaId), rfl⟩
    | none =>
      exfalso
      have h2 := List.find?_eq_none.mp hf s hs
      simp only [Bool.not_eq_true', List.any_eq_false, beq_iff_eq] at h2
      push_neg at h2
      obtain ⟨cr, hcr, hcr'⟩ := h2
      exact hbad' cr hcr hcr'
  have part3 : (∀ s ∈ p.scores, ∃ cr ∈ crits, cr.id = s.criteriaId) →
      (∀ v ∈ votes, ¬(v.userId = p.userId ∧ v.candidateId = p.candidateId)) →
      rateCandidate crits votes p
        = (votes ++ p.scores.map
              (fun s => ⟨p.userId, p.candidateId, s.criteriaId, s.scoreValue⟩),
            RateResult.ok p.scores.length) := by
    intro hval hfresh
    have hany : (votes.any fun v => v.userId == p.userId && v.candidateId == p.candidateId)
        = false := by
      rw [List.any_eq_false]
      intro v hv
      simp only [Bool.and_eq_true, beq_iff_eq, not_and]
      intro h1 h2
      exact hfresh v hv ⟨h1, h2⟩
    unfold rateCandidate
    rw [rate_find_none crits p.scores hval]
    rw [if_neg (by rw [hany]; simp)]
  refine ⟨part1, part2gen votes, part3, ?_⟩
  intro hval hfresh hne
  have h1 : (rateCandidate crits votes p).1
      = votes ++ p.scores.map
          (fun s => (⟨p.userId, p.candidateId, s.criteriaId, s.scoreValue⟩ : Vote)) := by
    rw [part3 hval hfresh]
  rw [h1]
  have hmem : ∃ v ∈ votes ++ p.scores.map
      (fun s => (⟨p.userId, p.candidateId, s.criteriaId, s.scoreValue⟩ : Vote)),
      v.userId = p.userId ∧ v.candidateId = p.candidateId := by
    match hsc : p.scores, hne with
    | s0 :: rest, _ =>
      refine ⟨⟨p.userId, p.candidateId, s0.criteriaId, s0.scoreValue⟩, ?_, rfl, rfl⟩
      rw [List.mem_append]
      exact Or.inr (List.mem_map_of_mem _ (List.mem_cons_self s0 rest))
  rw [part2gen _ hval hmem]

/-- Witness for C6 (amended): on an empty store, the concrete one-score
request succeeds first and the identical second submission is rejected with
HTTP 400. -/
theorem c6_witness :
    (rateCandidate [exCritB] ((rateCandidate [exCritB] [] exRate).1) exRate).2
      = RateResult.err 400 "You have already rated this candidate." :=
  (c6_rate_validation [exCritB] [] exRate).2.2.2 (by decide) (by decide) (by decide)

/-- C7: for one user and a single Cost criterion of weight 1 with raw scores
80 and 20 for the two candidates, the per-user WP scores are 0.8^-1 = 1.25 and
0.2^-1 = 5.0, so the candidate with the lower raw score ranks higher in that
user's preference list and in the final result. -/
theorem c7_cost_inverts :
    wpScore [exCritCost] exVotes7 "u1" "c1" = 1.25 ∧
    wpScore [exCritCost] exVotes7 "u1" "c2" = 5.0 ∧
    userRanking exCands2 [exCritCost] exVotes7 "u1" = ["c2", "c1"] ∧
    results exCands2 [exCritCost] exVotes7
      = [⟨"c2", "Bob", "Engineer", none, 2, 1⟩, ⟨"c1", "Alice", "Engineer", none, 1, 2⟩] := by
  refine ⟨?_, ?_, ranking_7, results_7⟩
  · rw [wp7_c1]
    norm_num
  · rw [wp7_c2]
    norm_num

/-- Counterexample to C8 as stated: per candidate (cand1, cand2, cand3) the
engine's Borda points are [2, 1, 3], not the claimed [3, 1, 2] (nor is
[3, 1, 2] the vector along the ranking order, which is [3, 2, 1]). -/
theorem c8_counterexample :
    [totalPoints exCands3 [exCritB] exVotes8 "c1",
      totalPoints exCands3 [exCritB] exVotes8 "c2",
      totalPoints exCands3 [exCritB] exVotes8 "c3"] = [2, 1, 3] ∧
    [totalPoints exCands3 [exCritB] exVotes8 "c1",
      totalPoints exCands3 [exCritB] exVotes8 "c2",
      totalPoints exCands3 [exCritB] exVotes8 "c3"] ≠ [3, 1, 2] := by
  have h : [totalPoints exCands3 [exCritB] exVotes8 "c1",
      totalPoints exCands3 [exCritB] exVotes8 "c2",
      totalPoints exCands3 [exCritB] exVotes8 "c3"] = [2, 1, 3] := by
    rw [tot_8_c1, tot_8_c2, tot_8_c3]
  refine ⟨h, ?_⟩
  rw [h]
  decide

/-- C8 amended: one user, one Benefit criterion of weight 1, scores
[80, 60, 100]: the WP scores are [0.80, 0.60, 1.00], the user's ranking is
[cand3, cand1, cand2], the per-candidate Borda points are [2, 1, 3]
(equivalently [3, 2, 1] read along the ranking), and the final result
preserves the order [cand3, cand1, cand2]. -/
theorem c8_benefit_scenario :
    wpScore [exCritB] exVotes8 "u1" "c1" = 0.80 ∧
    wpScore [exCritB] exVotes8 "u1" "c2" = 0.60 ∧
    wpScore [exCritB] exVotes8 "u1" "c3" = 1.00 ∧
    userRanking exCands3 [exCritB] exVotes8 "u1" = ["c3", "c1", "c2"] ∧
    totalPoints exCands3 [exCritB] exVotes8 "c1" = 2 ∧
    totalPoints exCands3 [exCritB] exVotes8 "c2" = 1 ∧
    totalPoints exCands3 [exCritB] exVotes8 "c3" = 3 ∧
    (results exCands3 [exCritB] exVotes8).map RankedResult.candidateId
      = ["c3", "c1", "c2"] := by
  refine ⟨?_, ?_, ?_, ranking_8, tot_8_c1, tot_8_c2, tot_8_c3, ?_⟩
  · rw [wp8_c1]
    norm_num
  · rw [wp8_c2]
    norm_num
  · rw [wp8_c3]
    norm_num
  · rw [results_8]
    rfl

/-- C9: permuting the criteria list (criterion ids being distinct, as the data
model requires) does not change the engine's ranked output: the WP product
accumulates multiplicatively over all criteria starting from 1.0, and
multiplication is commutative. -/
theorem c9_criteria_order_irrelevant (cands : List Candidate)
    (crits1 crits2 : List Criterion) (votes : List Vote)
    (hperm : List.Perm crits1 crits2) (hnd : (crits1.map Criterion.id).Nodup) :
    results cands crits1 votes = results cands crits2 votes := by
  have hnd2 : (crits2.map Criterion.id).Nodup := (hperm.map Criterion.id).nodup_iff.mp hnd
  have hwp : ∀ u cid, wpScore crits1 votes u cid = wpScore crits2 votes u cid := by
    intro u cid
    rw [wpScore_eq_prod, wpScore_eq_prod, dictOfList_nodup _ _ hnd, dictOfList_nodup _ _ hnd2]
    exact List.Perm.prod_eq
      ((hperm.map (fun x => (Criterion.id x, x))).map (wpTerm votes u cid))
  have hrank : ∀ u, userRanking cands crits1 votes u = userRanking cands crits2 votes u := by
    intro u
    unfold userRanking
    exact sortDesc_congr _ _ _ (fun cid _ => hwp u cid)
  have htot : ∀ cid, totalPoints cands crits1 votes cid = totalPoints cands crits2 votes cid := by
    intro cid
    unfold totalPoints
    refine congrArg List.sum (List.map_congr_left ?_)
    intro u _
    rw [hrank u]
  have henr : enriched cands crits1 votes = enriched cands crits2 votes := by
    unfold enriched
    refine List.map_congr_left ?_
    intro cid _
    rw [htot cid]
  unfold results sortedEnriched
  rw [henr]

/-- Witness for C9: swapping two distinct criteria leaves the concrete output
unchanged. -/
theorem c9_witness :
    results exCands2 [exCritB, exCritB2] exVotes7
      = results exCands2 [exCritB2, exCritB] exVotes7 :=
  c9_criteria_order_irrelevant exCands2 [exCritB, exCritB2] [exCritB2, exCritB] exVotes7
    (List.Perm.swap exCritB2 exCritB []) (by decide)

theorem sum_map_const {γ : Type} (c : ℕ) :
    ∀ l : List γ, (l.map (fun _ => c)).sum = l.length * c
  | [] => by simp
  | a :: l => by
    simp only [List.map_cons, List.sum_cons, sum_map_const c l, List.length_cons]
    ring

/-- C10: with a non-empty candidate list of N candidates whose ids are
distinct (as the data model requires), the totalBordaPoints of the returned
rows sum to U * N(N+1)/2 where U is the number of distinct userIds in the vote
list; in particular with zero votes every row's totalBordaPoints is 0. -/
theorem c10_total_points_sum (cands : List Candidate) (crits : List Criterion)
    (votes : List Vote) (hne : cands ≠ []) (hnd : (cands.map Candidate.id).Nodup) :
    ((results cands crits votes).map RankedResult.totalBordaPoints).sum
      = (userIds votes).length * (cands.length * (cands.length + 1) / 2) ∧
    (votes = [] → ∀ res ∈ results cands crits votes, res.totalBordaPoints = 0) := by
  constructor
  · rw [results_cons _ _ _ hne, rankAssign_map_points]
    have hp : ((sortedEnriched cands crits votes).map PreResult.totalBordaPoints).sum
        = ((enriched cands crits votes).map PreResult.totalBordaPoints).sum :=
      List.Perm.sum_eq ((sortDesc_perm _ _).map _)
    rw [hp, enriched_map_points]
    have hswap : ((cands.map Candidate.id).map (totalPoints cands crits votes)).sum
        = ((userIds votes).map (fun u => ((cands.map Candidate.id).map
            (fun cid => bordaPoints cands.length 0 (userRanking cands crits votes u)
              cid)).sum)).sum := by
      unfold totalPoints
      exact sum_map_swap
        (fun cid u => bordaPoints cands.length 0 (userRanking cands crits votes u) cid)
        (cands.map Candidate.id) (userIds votes)
    rw [hswap]
    have huser : ∀ u : String, ((cands.map Candidate.id).map
        (fun cid => bordaPoints cands.length 0 (userRanking cands crits votes u) cid)).sum
        = cands.length * (cands.length + 1) / 2 := by
      intro u
      have hsum : ((cands.map Candidate.id).map
          (fun cid => bordaPoints cands.length 0 (userRanking cands crits votes u) cid)).sum
          = ((userRanking cands crits votes u).map
            (fun cid => bordaPoints cands.length 0 (userRanking cands crits votes u)
              cid)).sum :=
        List.Perm.sum_eq ((sortDesc_perm _ _).symm.map _)
      rw [hsum]
      have hndr : (userRanking cands crits votes u).Nodup :=
        (sortDesc_perm _ _).nodup_iff.mpr hnd
      have hlen2 : (userRanking cands crits votes u).length = cands.length := by
        have hl := (sortDesc_perm (fun cid => wpScore crits votes u cid)
          (cands.map Candidate.id)).length_eq
        rw [List.length_map] at hl
        exact hl
      have h2 := borda_sum_nodup cands.length (userRanking cands crits votes u) 0 hndr
        (by omega)
      rw [hlen2] at h2
      omega
    rw [congrArg List.sum (List.map_congr_left (fun u _ => huser u)), sum_map_const]
  · intro hv res hres
    by_cases hc : cands = []
    · rw [hc, results_nil] at hres
      exact absurd hres (List.not_mem_nil res)
    · rw [results_cons cands crits votes hc] at hres
      have h1 : res.toPre ∈ sortedEnriched cands crits votes :=
        rankAssign_mem _ _ _ _ hres
      have h2 : res.toPre ∈ enriched cands crits votes :=
        (sortDesc_perm _ _).mem_iff.mp h1
      unfold enriched at h2
      obtain ⟨cid, hcid, heq⟩ := List.mem_map.mp h2
      have hpts : totalPoints cands crits votes cid = res.totalBordaPoints :=
        congrArg PreResult.totalBordaPoints heq
      rw [← hpts, hv]
      rfl

/-- Witness for C10 at the one-vote, two-candidate input: the totals sum to
1 * (2*3/2) = 3. -/
theorem c10_witness :
    ((results exCands2 [] exVotes1).map RankedResult.totalBordaPoints).sum
      = (userIds exVotes1).length * (exCands2.length * (exCands2.length + 1) / 2) :=
  (c10_total_points_sum exCands2 [] exVotes1 (by decide) (by decide)).1
